import Mathlib

/-
Verification of the Forest relevance engine (forest-desktop/src-tauri/src/core):
text normalization (text.rs), hybrid scoring (scoring.rs), auto-linking
(linking.rs), semantic search (search.rs) and the embedding providers
(embeddings.rs), shallowly embedded in Lean.

Modelling conventions:
- Rust f64 arithmetic is modelled by exact real arithmetic over ℝ.
- Rust String/char operations (to_lowercase, is_alphanumeric, is_whitespace,
  byte-wise &str comparison) are modelled on Lean Char lists; the model agrees
  with Rust on ASCII text, and Rust byte-wise UTF-8 order coincides with
  code-point order.
- HashMap<String, i64> is modelled as an association list with first-match
  lookup; HashSet iteration is modelled through Finsets/dedup, which is sound
  because every iteration in the source feeds a commutative accumulation.
-/

namespace Forest

/-! ### Char-level string primitives -/

/-- Lexicographic order on char lists; models Rust byte-wise `&str < &str`
(identical to code-point order for UTF-8). -/
def lexLt : List Char → List Char → Bool
  | [], [] => false
  | [], _ :: _ => true
  | _ :: _, [] => false
  | a :: as, b :: bs =>
    if a.toNat < b.toNat then true
    else if b.toNat < a.toNat then false
    else lexLt as bs

/-- Rust `a < b` on strings. -/
def strLt (a b : String) : Bool := lexLt a.data b.data

/-- Rust `token.ends_with(suffix)`. -/
def strEndsWith (t suf : String) : Bool := suf.data.isSuffixOf t.data

/-- Rust `&token[..token.len() - k]` (drop the last `k` chars; ASCII bytes = chars). -/
def strDropRight (t : String) (k : ℕ) : String :=
  String.mk (t.data.take (t.data.length - k))

/-- Rust `&token[token.len() - k..]` (the last `k` chars). -/
def strTakeRight (t : String) (k : ℕ) : String :=
  String.mk (t.data.drop (t.data.length - k))

/-- Auxiliary for whitespace splitting: accumulates the current token reversed. -/
def splitWsAux : List Char → List Char → List (List Char)
  | [], acc => if acc.isEmpty then [] else [acc.reverse]
  | c :: rest, acc =>
    if c.isWhitespace then
      if acc.isEmpty then splitWsAux rest [] else acc.reverse :: splitWsAux rest []
    else
      splitWsAux rest (c :: acc)

/-- Rust `split_whitespace`: split on whitespace runs, no empty tokens. -/
def splitWs (s : List Char) : List (List Char) := splitWsAux s []

/-! ### text.rs -/

/-- STOPWORDS set from text.rs (listed in source order). -/
def STOPWORDS : List String :=
  ["a", "an", "and", "are", "as", "at", "be", "but", "by", "for", "if", "in",
   "into", "is", "it", "no", "not", "of", "on", "or", "such", "that", "the",
   "their", "then", "there", "these", "they", "this", "to", "was", "will",
   "with", "we", "you", "i",
   "can", "could", "should", "would", "may", "might", "must", "also", "very",
   "much", "more", "most", "many", "few", "several", "often", "usually",
   "sometimes", "generally",
   "from", "after", "before", "between", "across", "along", "within",
   "without", "via", "per", "because", "however", "therefore", "thus",
   "ensure", "include", "including", "includes", "using", "use", "used",
   "based", "make", "made", "makes", "provide", "provides", "provided",
   "create", "creates", "created",
   "system", "systems", "process", "processes", "structure", "pattern",
   "patterns", "interface", "method", "methods", "approach", "approaches",
   "way", "ways"]

/-- Keys of the TOKEN_DOWNWEIGHT map in scoring.rs (every value is 0.4). -/
def TOKEN_DOWNWEIGHT : List String :=
  ["flow", "flows", "stream", "streams", "pipe", "pipes", "branch",
   "branches", "terminal", "terminals"]

/-- normalize_token from text.rs: lightweight suffix-stripping stemmer.
First matching rule wins; tokens of length ≤ 3 are returned unchanged. -/
def normalize_token (token : String) : String :=
  if token.length ≤ 3 then token
  else if strEndsWith token "ies" ∧ token.length > 4 then strDropRight token 3 ++ "y"
  else if strEndsWith token "sses" then strDropRight token 2
  else if strEndsWith token "ches" ∨ strEndsWith token "shes" ∨
          strEndsWith token "xes" ∨ strEndsWith token "zes" then strDropRight token 2
  else if strEndsWith token "ing" ∧ token.length > 5 then strDropRight token 3
  else if strEndsWith token "ed" ∧ token.length > 4 then strDropRight token 2
  else if strEndsWith token "s" ∧ token.length > 4 ∧
          strTakeRight token 2 ≠ "ss" ∧ strTakeRight token 2 ≠ "us" ∧
          strTakeRight token 2 ≠ "is" then strDropRight token 1
  else token

/-- tokenize_to_list from text.rs: lowercase, keep alphanumeric / `#` /
whitespace, split on whitespace, drop short tokens and stopwords, stem. -/
def tokenize_to_list (text : String) : List String :=
  let normalized := (text.data.map Char.toLower).map
    (fun c => if c.isAlphanum ∨ c = '#' ∨ c.isWhitespace then c else ' ')
  (((splitWs normalized).map (fun cs => String.mk cs)).filter
    (fun t => 2 ≤ t.length ∧ ¬ STOPWORDS.contains t)).map normalize_token

/-- Count token frequencies into an association list
(models building the HashMap with `*counts.entry(token).or_insert(0) += 1`). -/
def bumpCount : List (String × Int) → String → List (String × Int)
  | [], t => [(t, 1)]
  | (k, v) :: rest, t =>
    if k = t then (k, v + 1) :: rest else (k, v) :: bumpCount rest t

/-- tokenize from text.rs. Its token pipeline in the source is textually
identical to tokenize_to_list (both keep `#`); it then counts frequencies. -/
def tokenize (text : String) : List (String × Int) :=
  (tokenize_to_list text).foldl bumpCount []

/-- tokens_from_title from text.rs: same pipeline as tokenize_to_list except
that `#` is NOT kept as a token character. -/
def tokens_from_title (title : String) : List String :=
  let normalized := (title.data.map Char.toLower).map
    (fun c => if c.isAlphanum ∨ c.isWhitespace then c else ' ')
  (((splitWs normalized).map (fun cs => String.mk cs)).filter
    (fun t => 2 ≤ t.length ∧ ¬ STOPWORDS.contains t)).map normalize_token

/-! ### db/types.rs -/

/-- NodeRecord from db/types.rs. token_counts is the HashMap<String,i64>
modelled as an association list, embedding the Option<Vec<f64>>. -/
structure NodeRecord where
  id : String
  title : String
  body : String
  tags : List String
  token_counts : List (String × Int)
  embedding : Option (List ℝ)
  created_at : String
  updated_at : String
  is_chunk : Bool
  parent_document_id : Option String
  chunk_order : Option Int

/-- EdgeStatus from db/types.rs. -/
inductive EdgeStatus where
  | Accepted
  | Suggested
deriving DecidableEq, Repr

/-- EdgeType from db/types.rs. -/
inductive EdgeType where
  | Semantic
  | ParentChild
  | Sequential
  | Manual
deriving DecidableEq, Repr

/-- NewEdge from db/types.rs (metadata is opaque JSON; modelled as an
opaque optional string). -/
structure NewEdge where
  source_id : String
  target_id : String
  score : ℝ
  status : EdgeStatus
  edge_type : EdgeType
  metadata : Option String

/-! ### scoring.rs -/

/-- ScoreComponents from scoring.rs. -/
structure ScoreComponents where
  tag_overlap : ℝ
  token_similarity : ℝ
  title_similarity : ℝ
  embedding_similarity : ℝ
  penalty : ℝ

/-- ScoreResult from scoring.rs. -/
structure ScoreResult where
  score : ℝ
  components : ScoreComponents

/-- ScoreClassification from scoring.rs. -/
inductive ScoreClassification where
  | Accepted
  | Suggested
  | Discard
deriving DecidableEq, Repr

/-- Lookup in the token-count map, defaulting to 0 (HashMap::get + unwrap_or(0)). -/
def tcLookup (m : List (String × Int)) (k : String) : Int :=
  match m.find? (fun p => p.1 == k) with
  | some p => p.2
  | none => 0

/-- Keys of a token-count map. -/
def tcKeys (m : List (String × Int)) : List String := m.map Prod.fst

/-- TOKEN_DOWNWEIGHT.get(key).unwrap_or(1.0). -/
noncomputable def downweight (token : String) : ℝ :=
  if TOKEN_DOWNWEIGHT.contains token then 0.4 else 1.0

/-- cosine_similarity from scoring.rs: weighted cosine over the union of the
two key sets (the HashSet union is modelled as the dedup of concatenated key
lists; the iteration order is irrelevant because the accumulation is a sum). -/
noncomputable def cosine_similarity (a b : List (String × Int)) : ℝ :=
  let keys := (tcKeys a ++ tcKeys b).dedup
  if keys.isEmpty then 0
  else
    let valA := fun k => (tcLookup a k : ℝ) * downweight k
    let valB := fun k => (tcLookup b k : ℝ) * downweight k
    let dot := (keys.map (fun k => valA k * valB k)).sum
    let magA := (keys.map (fun k => valA k * valA k)).sum
    let magB := (keys.map (fun k => valB k * valB k)).sum
    if magA = 0 ∨ magB = 0 then 0 else dot / (Real.sqrt magA * Real.sqrt magB)

/-- jaccard from scoring.rs: |A ∩ B| / |A ∪ B| over the tag lists viewed as
sets, with both-empty (and empty-union) mapped to 0. -/
noncomputable def jaccard (a b : List String) : ℝ :=
  if a.isEmpty ∧ b.isEmpty then 0
  else
    let inter := (a.toFinset ∩ b.toFinset).card
    let union := (a.toFinset ∪ b.toFinset).card
    if union = 0 then 0 else (inter : ℝ) / (union : ℝ)

/-- title_cosine from scoring.rs: overlap / sqrt(|A|·|B|). The overlap loop
counts, with multiplicity, the tokens of `a` that occur in `b`'s token set. -/
noncomputable def title_cosine (a b : String) : ℝ :=
  let ta := tokens_from_title a
  let tb := tokens_from_title b
  if ta.isEmpty ∨ tb.isEmpty then 0
  else
    let overlap := ta.countP (fun t => decide (t ∈ tb))
    let denom := Real.sqrt ((ta.length * tb.length : ℕ) : ℝ)
    if denom = 0 then 0 else (overlap : ℝ) / denom

/-- cosine_embeddings from scoring.rs: cosine over the first
min(|a|,|b|) coordinates; missing/empty vectors and zero magnitudes give 0. -/
noncomputable def cosine_embeddings : Option (List ℝ) → Option (List ℝ) → ℝ
  | some va, some vb =>
    if va.isEmpty ∨ vb.isEmpty then 0
    else
      let dim := min va.length vb.length
      let xa := va.take dim
      let xb := vb.take dim
      let dot := (List.zipWith (fun x y => x * y) xa xb).sum
      let magA := (List.zipWith (fun x y => x * y) xa xa).sum
      let magB := (List.zipWith (fun x y => x * y) xb xb).sum
      if magA = 0 ∨ magB = 0 then 0 else dot / (Real.sqrt magA * Real.sqrt magB)
  | _, _ => 0

/-- compute_score from scoring.rs: the hybrid score. -/
noncomputable def compute_score (a b : NodeRecord) : ScoreResult :=
  let tag_overlap := jaccard a.tags b.tags
  let token_similarity := cosine_similarity a.token_counts b.token_counts
  let title_similarity := title_cosine a.title b.title
  let embedding_similarity_raw := cosine_embeddings a.embedding b.embedding
  let embedding_similarity := (max embedding_similarity_raw 0) ^ (1.25 : ℝ)
  let score0 :=
    0.25 * token_similarity + 0.55 * embedding_similarity +
    0.15 * tag_overlap + 0.05 * title_similarity
  let penalty : ℝ := if tag_overlap = 0 ∧ title_similarity = 0 then 0.9 else 1.0
  { score := score0 * penalty
    components :=
      { tag_overlap := tag_overlap
        token_similarity := token_similarity
        title_similarity := title_similarity
        embedding_similarity := embedding_similarity
        penalty := penalty } }

/-- classify_score from scoring.rs. The two thresholds come from environment
configuration (defaults 0.5 and 0.25); they are modelled as parameters. -/
noncomputable def classify_score (autoAccept suggestion score : ℝ) :
    ScoreClassification :=
  if score ≥ autoAccept then ScoreClassification.Accepted
  else if score ≥ suggestion then ScoreClassification.Suggested
  else ScoreClassification.Discard

/-- classification_to_status from scoring.rs: Discard maps to none. -/
def classification_to_status : ScoreClassification → Option EdgeStatus
  | ScoreClassification.Accepted => some EdgeStatus.Accepted
  | ScoreClassification.Suggested => some EdgeStatus.Suggested
  | ScoreClassification.Discard => none

/-- normalize_edge_pair from scoring.rs: the lexicographically smaller id
becomes the source. -/
def normalize_edge_pair (a b : String) : String × String :=
  if strLt a b then (a, b) else (b, a)

/-! ### linking.rs -/

/-- auto_link_node from linking.rs. The database interaction is modelled by
state passing: the corpus stands for `db.list_nodes(..)` and the returned edge
list records, in corpus order, the `db.upsert_edge` calls that were issued.
Returns (upserted edges, accepted count, suggested count). -/
noncomputable def auto_link_node (corpus : List NodeRecord) (new_node : NodeRecord)
    (autoAccept suggestion : ℝ) : List NewEdge × ℕ × ℕ :=
  match corpus with
  | [] => ([], 0, 0)
  | other :: rest =>
    let r := auto_link_node rest new_node autoAccept suggestion
    if other.id = new_node.id then r
    else
      let score_result := compute_score new_node other
      let classification := classify_score autoAccept suggestion score_result.score
      match classification_to_status classification with
      | none => r
      | some st =>
        let p := normalize_edge_pair new_node.id other.id
        let e : NewEdge :=
          { source_id := p.1
            target_id := p.2
            score := score_result.score
            status := st
            edge_type := EdgeType.Semantic
            metadata := none }
        (e :: r.1,
         (if st = EdgeStatus.Accepted then 1 else 0) + r.2.1,
         (if st = EdgeStatus.Suggested then 1 else 0) + r.2.2)

/-! ### search.rs -/

/-- SearchResult from search.rs. -/
structure SearchResult where
  node : NodeRecord
  similarity : ℝ

/-- semantic_search from search.rs. The query embedding produced by the
embedding service is passed in as an Option; the corpus stands for
`db.list_nodes(..)`. Nodes without an embedding are skipped; results are
sorted descending by similarity (a stable sort, matching Rust `sort_by` with
the reversed comparator) and truncated to `limit`. -/
noncomputable def semantic_search (query_embedding : Option (List ℝ))
    (all_nodes : List NodeRecord) (limit : ℕ) : List SearchResult :=
  match query_embedding with
  | none => []
  | some q =>
    let results := all_nodes.filterMap (fun n =>
      match n.embedding with
      | some emb => some ⟨n, cosine_embeddings (some q) (some emb)⟩
      | none => none)
    (results.mergeSort (fun x y => decide (y.similarity ≤ x.similarity))).take limit

/-! ### embeddings.rs -/

/-- EmbeddingProvider from embeddings.rs. -/
inductive EmbeddingProvider where
  | Local
  | OpenAI
  | Mock
  | None
deriving DecidableEq, Repr

/-- FNV-1a 32-bit hash over the token bytes (ASCII: byte = char code),
offset basis 2166136261, prime 16777619, with wrapping u32 multiplication. -/
def fnv1a (token : String) : ℕ :=
  token.data.foldl (fun hash c => ((hash ^^^ c.toNat) * 16777619) % 2 ^ 32) 2166136261

/-- Tokenization inside embed_mock: lowercase, keep alphanumeric/whitespace,
split on whitespace, drop empties. -/
def mock_tokens (text : String) : List String :=
  let normalized := (text.data.map Char.toLower).map
    (fun c => if c.isAlphanum ∨ c.isWhitespace then c else ' ')
  ((splitWs normalized).map (fun cs => String.mk cs)).filter (fun t => ¬ t.isEmpty)

/-- The 384 bucket counts accumulated by embed_mock before normalization
(the f64 vector holds exact integer counts at this point, so the buckets are
modelled as naturals; `let idx = hash % DIM; vec[idx] += 1.0` is inlined). -/
def mock_counts (text : String) : List ℕ :=
  (mock_tokens text).foldl
    (fun v t => v.set (fnv1a t % 384) (v.getD (fnv1a t % 384) 0 + 1))
    (List.replicate 384 0)

/-- embed_mock from embeddings.rs: bucket counts, then L2 normalization;
a zero vector is returned unchanged. -/
noncomputable def embed_mock (text : String) : List ℝ :=
  let v : List ℝ := (mock_counts text).map (fun (n : ℕ) => (n : ℝ))
  let norm := Real.sqrt ((v.map (fun x => x * x)).sum)
  if 0 < norm then v.map (fun x => x / norm) else v

/-- Rust `text.trim().is_empty()` (trim strips leading and trailing
whitespace). -/
def trimIsEmpty (s : String) : Bool :=
  (((s.data.dropWhile Char.isWhitespace).reverse.dropWhile
      Char.isWhitespace).reverse).isEmpty

/-- EmbeddingService::embed_text from embeddings.rs. The Local and OpenAI
providers perform I/O; they are modelled as arbitrary fallible functions
passed in as parameters, so a result that holds for every `localFn`/`openaiFn`
is independent of the provider (the provider was not consulted). -/
noncomputable def embed_text (provider : EmbeddingProvider)
    (localFn openaiFn : String → Except String (List ℝ)) (text : String) :
    Except String (Option (List ℝ)) :=
  if trimIsEmpty text then Except.ok none
  else
    match provider with
    | EmbeddingProvider.None => Except.ok none
    | EmbeddingProvider.Local => (localFn text).map (fun e => some e)
    | EmbeddingProvider.OpenAI => (openaiFn text).map (fun e => some e)
    | EmbeddingProvider.Mock => Except.ok (some (embed_mock text))

/-! ### Helper lemmas -/

theorem lexLt_irrefl (l : List Char) : lexLt l l = false := by
  induction l with
  | nil => rfl
  | cons a as ih => simp [lexLt, ih]

theorem lexLt_asymm : ∀ {l₁ l₂ : List Char}, lexLt l₁ l₂ = true → lexLt l₂ l₁ = false := by
  intro l₁
  induction l₁ with
  | nil =>
    intro l₂ h
    cases l₂ with
    | nil => exact Bool.noConfusion h
    | cons b bs => rfl
  | cons a as ih =>
    intro l₂ h
    cases l₂ with
    | nil => exact Bool.noConfusion h
    | cons b bs =>
      simp only [lexLt] at h ⊢
      by_cases hab : a.toNat < b.toNat
      · have hba : ¬ b.toNat < a.toNat := by omega
        simp [hab, hba]
      · by_cases hba : b.toNat < a.toNat
        · simp [hab, hba] at h
        · simp only [if_neg hab, if_neg hba] at h ⊢
          exact ih h

theorem lexLt_antisymm : ∀ {l₁ l₂ : List Char},
    lexLt l₁ l₂ = false → lexLt l₂ l₁ = false → l₁ = l₂ := by
  intro l₁
  induction l₁ with
  | nil =>
    intro l₂ h₁ _
    cases l₂ with
    | nil => rfl
    | cons b bs => exact Bool.noConfusion h₁
  | cons a as ih =>
    intro l₂ h₁ h₂
    cases l₂ with
    | nil => exact Bool.noConfusion h₂
    | cons b bs =>
      simp only [lexLt] at h₁ h₂
      by_cases hab : a.toNat < b.toNat
      · simp [hab] at h₁
      · by_cases hba : b.toNat < a.toNat
        · simp [hba] at h₂
        · simp only [if_neg hab, if_neg hba] at h₁ h₂
          have hn : a.toNat = b.toNat := by omega
          have hc : a = b := by
            have := congrArg Char.ofNat hn
            rwa [Char.ofNat_toNat, Char.ofNat_toNat] at this
          rw [hc, ih h₁ h₂]

theorem strLt_asymm {x y : String} (h : strLt x y = true) : strLt y x = false :=
  lexLt_asymm h

theorem strLt_antisymm {x y : String} (h₁ : strLt x y = false)
    (h₂ : strLt y x = false) : x = y := by
  cases x with
  | mk xd =>
    cases y with
    | mk yd => exact congrArg String.mk (lexLt_antisymm h₁ h₂)

theorem foldl_set_length (toks : List String) :
    ∀ v : List ℕ,
      (toks.foldl
        (fun v t => v.set (fnv1a t % 384) (v.getD (fnv1a t % 384) 0 + 1))
        v).length = v.length := by
  induction toks with
  | nil => intro v; rfl
  | cons t ts ih =>
    intro v
    rw [List.foldl_cons, ih]
    exact List.length_set v _ _

theorem mock_counts_length (t : String) : (mock_counts t).length = 384 := by
  unfold mock_counts
  rw [foldl_set_length]
  exact List.length_replicate 384 0

theorem sum_map_sq_nonneg (l : List ℝ) : 0 ≤ (l.map (fun x => x * x)).sum := by
  apply List.sum_nonneg
  intro x hx
  obtain ⟨y, _, rfl⟩ := List.mem_map.1 hx
  exact mul_self_nonneg y

theorem sum_map_pos {α : Type} (l : List α) (f : α → ℝ)
    (h0 : ∀ x ∈ l, 0 ≤ f x) (x : α) (hx : x ∈ l) (hfx : 0 < f x) :
    0 < (l.map f).sum := by
  induction l with
  | nil => cases hx
  | cons a as ih =>
    rw [List.map_cons, List.sum_cons]
    rcases List.mem_cons.1 hx with h | h
    · subst h
      have hrest : 0 ≤ (as.map f).sum :=
        List.sum_nonneg (by
          intro y hy
          obtain ⟨z, hz, rfl⟩ := List.mem_map.1 hy
          exact h0 z (List.mem_cons_of_mem _ hz))
      linarith
    · have ha : 0 ≤ f a := h0 a (List.mem_cons_self _ _)
      have := ih (fun y hy => h0 y (List.mem_cons_of_mem _ hy)) h
      linarith

theorem sq_div_sum (l : List ℝ) (c : ℝ) :
    ((l.map (fun x => x / c)).map (fun x => x * x)).sum =
      (l.map (fun x => x * x)).sum / (c * c) := by
  induction l with
  | nil => simp
  | cons a as ih =>
    simp only [List.map_cons, List.sum_cons]
    rw [ih, div_mul_div_comm, div_add_div_same]

/-! ### Claim theorems -/

/-- C1: compute_score returns
0.25·token + 0.55·embedding + 0.15·tag + 0.05·title multiplied by 0.9 exactly
when both the tag-overlap and title-similarity components are zero (and by 1.0
otherwise), and the applied penalty is reported in the components. -/
theorem computeScore_formula (a b : NodeRecord) :
    (compute_score a b).score =
      (0.25 * (compute_score a b).components.token_similarity +
       0.55 * (compute_score a b).components.embedding_similarity +
       0.15 * (compute_score a b).components.tag_overlap +
       0.05 * (compute_score a b).components.title_similarity) *
        (compute_score a b).components.penalty ∧
    ((compute_score a b).components.penalty = 0.9 ↔
      ((compute_score a b).components.tag_overlap = 0 ∧
       (compute_score a b).components.title_similarity = 0)) ∧
    ((compute_score a b).components.penalty = 1.0 ↔
      ¬ ((compute_score a b).components.tag_overlap = 0 ∧
         (compute_score a b).components.title_similarity = 0)) := by
  unfold compute_score
  dsimp only
  refine ⟨rfl, ?_, ?_⟩
  · by_cases h : jaccard a.tags b.tags = 0 ∧ title_cosine a.title b.title = 0
    · rw [if_pos h]
      exact iff_of_true rfl h
    · rw [if_neg h]
      exact iff_of_false (by norm_num) h
  · by_cases h : jaccard a.tags b.tags = 0 ∧ title_cosine a.title b.title = 0
    · rw [if_pos h]
      exact iff_of_false (by norm_num) (not_not_intro h)
    · rw [if_neg h]
      exact iff_of_true rfl h

/-- Rank of a classification in the Discard < Suggested < Accepted order. -/
def classRank : ScoreClassification → ℕ
  | ScoreClassification.Discard => 0
  | ScoreClassification.Suggested => 1
  | ScoreClassification.Accepted => 2

/-- C3: with thresholds fixed (defaults 0.5 and 0.25), classify_score returns
Accepted for score ≥ autoAccept, Suggested for suggestion ≤ score < autoAccept,
Discard otherwise; scores exactly equal to a threshold classify into the higher
tier, and the classification is monotone non-decreasing in the score. -/
theorem classifyScore_spec (autoAccept suggestion : ℝ) :
    (∀ s, autoAccept ≤ s →
      classify_score autoAccept suggestion s = ScoreClassification.Accepted) ∧
    (∀ s, suggestion ≤ s → s < autoAccept →
      classify_score autoAccept suggestion s = ScoreClassification.Suggested) ∧
    (∀ s, s < autoAccept → s < suggestion →
      classify_score autoAccept suggestion s = ScoreClassification.Discard) ∧
    classify_score autoAccept suggestion autoAccept = ScoreClassification.Accepted ∧
    (suggestion < autoAccept →
      classify_score autoAccept suggestion suggestion = ScoreClassification.Suggested) ∧
    (classify_score 0.5 0.25 0.5 = ScoreClassification.Accepted ∧
     classify_score 0.5 0.25 0.25 = ScoreClassification.Suggested) ∧
    (∀ s t, s ≤ t →
      classRank (classify_score autoAccept suggestion s) ≤
        classRank (classify_score autoAccept suggestion t)) := by
  have haccept : ∀ s, autoAccept ≤ s →
      classify_score autoAccept suggestion s = ScoreClassification.Accepted := by
    intro s hs
    unfold classify_score
    rw [if_pos hs]
  have hsuggest : ∀ s, suggestion ≤ s → s < autoAccept →
      classify_score autoAccept suggestion s = ScoreClassification.Suggested := by
    intro s hs hlt
    unfold classify_score
    rw [if_neg (not_le.mpr hlt), if_pos hs]
  have hdiscard : ∀ s, s < autoAccept → s < suggestion →
      classify_score autoAccept suggestion s = ScoreClassification.Discard := by
    intro s h1 h2
    unfold classify_score
    rw [if_neg (not_le.mpr h1), if_neg (not_le.mpr h2)]
  refine ⟨haccept, hsuggest, hdiscard, haccept autoAccept le_rfl,
    fun h => hsuggest suggestion le_rfl h, ⟨?_, ?_⟩, ?_⟩
  · unfold classify_score
    rw [if_pos (by norm_num : (0.5 : ℝ) ≥ 0.5)]
  · unfold classify_score
    rw [if_neg (by norm_num : ¬ ((0.25 : ℝ) ≥ 0.5)),
        if_pos (by norm_num : (0.25 : ℝ) ≥ 0.25)]
  · intro s t hst
    unfold classify_score
    by_cases h1 : s ≥ autoAccept
    · rw [if_pos h1, if_pos (le_trans h1 hst)]
    · by_cases h2 : s ≥ suggestion
      · rw [if_neg h1, if_pos h2]
        by_cases h3 : t ≥ autoAccept
        · rw [if_pos h3]
          simp [classRank]
        · rw [if_neg h3, if_pos (le_trans h2 hst)]
      · rw [if_neg h1, if_neg h2]
        by_cases h3 : t ≥ autoAccept
        · rw [if_pos h3]
          simp [classRank]
        · by_cases h4 : t ≥ suggestion
          · rw [if_neg h3, if_pos h4]
            simp [classRank]
          · rw [if_neg h3, if_neg h4]

/-- C3 witness: a concrete mid-band score at the default thresholds. -/
theorem classifyScore_spec_witness :
    (0.25 : ℝ) ≤ 0.3 ∧ (0.3 : ℝ) < 0.5 ∧
      classify_score 0.5 0.25 0.3 = ScoreClassification.Suggested :=
  ⟨by norm_num, by norm_num,
    (classifyScore_spec 0.5 0.25).2.1 0.3 (by norm_num) (by norm_num)⟩

/-- C8: embedding empty or whitespace-only text returns Ok(None) for every
provider, independent of the provider functions (so no provider is consulted). -/
theorem embedText_empty (provider : EmbeddingProvider)
    (localFn openaiFn : String → Except String (List ℝ)) (text : String)
    (h : trimIsEmpty text = true) :
    embed_text provider localFn openaiFn text = Except.ok none := by
  unfold embed_text
  rw [if_pos h]

/-- C8 witness: whitespace-only input under the Local provider with a failing
provider function. -/
theorem embedText_empty_witness :
    trimIsEmpty "  " = true ∧
      embed_text EmbeddingProvider.Local (fun _ => Except.error "io")
        (fun _ => Except.error "io") "  " = Except.ok none :=
  ⟨by decide, embedText_empty _ _ _ _ (by decide)⟩

/-- C9: normalize_edge_pair is symmetric and returns the two ids in ascending
lexical order (the smaller id first). -/
theorem normalizeEdgePair_spec (x y : String) :
    normalize_edge_pair x y = normalize_edge_pair y x ∧
    (strLt (normalize_edge_pair x y).1 (normalize_edge_pair x y).2 = true ∨
      (normalize_edge_pair x y).1 = (normalize_edge_pair x y).2) := by
  unfold normalize_edge_pair
  cases hxy : strLt x y with
  | true =>
    have h2 : strLt y x = false := strLt_asymm hxy
    have h2' : ¬ (strLt y x = true) := by
      rw [h2]
      exact Bool.false_ne_true
    rw [if_pos rfl, if_neg h2']
    exact ⟨rfl, Or.inl hxy⟩
  | false =>
    have h1' : ¬ (strLt x y = true) := by
      rw [hxy]
      exact Bool.false_ne_true
    cases hyx : strLt y x with
    | true =>
      rw [if_neg Bool.false_ne_true, if_pos rfl]
      exact ⟨rfl, Or.inl hyx⟩
    | false =>
      have heq : x = y := strLt_antisymm hxy hyx
      subst heq
      rw [if_neg Bool.false_ne_true]
      exact ⟨rfl, Or.inr rfl⟩

/-- C6: the mock provider is a pure deterministic function; embedding the same
text twice gives identical vectors of length 384, obtained by FNV-1a bucket
counting and L2 normalization: if some bucket is nonzero the result has
squared L2 norm 1, and if every bucket is zero the zero count vector is
returned unchanged. -/
theorem embedMock_spec (t : String) :
    embed_mock t = embed_mock t ∧
    (embed_mock t).length = 384 ∧
    ((∃ n ∈ mock_counts t, n ≠ 0) →
      ((embed_mock t).map (fun x => x * x)).sum = 1) ∧
    ((∀ n ∈ mock_counts t, n = 0) →
      embed_mock t = (mock_counts t).map (fun (n : ℕ) => (n : ℝ))) := by
  refine ⟨rfl, ?_, ?_, ?_⟩
  · unfold embed_mock
    dsimp only
    by_cases h : 0 < Real.sqrt
        ((((mock_counts t).map (fun (n : ℕ) => (n : ℝ))).map (fun x => x * x)).sum)
    · rw [if_pos h]
      simp [mock_counts_length]
    · rw [if_neg h]
      simp [mock_counts_length]
  · rintro ⟨n, hn, hn0⟩
    have hmem : (n : ℝ) ∈ (mock_counts t).map (fun (n : ℕ) => (n : ℝ)) :=
      List.mem_map_of_mem _ hn
    have hpos : 0 <
        ((((mock_counts t).map (fun (n : ℕ) => (n : ℝ))).map (fun x => x * x)).sum) := by
      apply sum_map_pos _ _ (fun x _ => mul_self_nonneg x) _ hmem
      exact mul_self_pos.mpr (Nat.cast_ne_zero.mpr hn0)
    have hsq : 0 < Real.sqrt
        ((((mock_counts t).map (fun (n : ℕ) => (n : ℝ))).map (fun x => x * x)).sum) :=
      Real.sqrt_pos.mpr hpos
    unfold embed_mock
    dsimp only
    rw [if_pos hsq, sq_div_sum, Real.mul_self_sqrt hpos.le]
    exact div_self hpos.ne'
  · intro hz
    have hsum :
        ((((mock_counts t).map (fun (n : ℕ) => (n : ℝ))).map (fun x => x * x)).sum) = 0 := by
      apply List.sum_eq_zero
      intro x hx
      obtain ⟨y, hy, rfl⟩ := List.mem_map.1 hx
      obtain ⟨m, hm, rfl⟩ := List.mem_map.1 hy
      rw [hz m hm]
      norm_num
    unfold embed_mock
    dsimp only
    rw [hsum, Real.sqrt_zero, if_neg (lt_irrefl 0)]

set_option maxRecDepth 40000 in
/-- C6 witness: the single-token text "a" fills exactly one bucket, so its
mock embedding has unit squared norm. -/
theorem embedMock_spec_witness :
    (∃ n ∈ mock_counts "a", n ≠ 0) ∧
      ((embed_mock "a").map (fun x => x * x)).sum = 1 :=
  ⟨by decide, (embedMock_spec "a").2.2.1 (by decide)⟩

theorem ofNat_shift_ne_hash : ∀ m : ℕ, 65 ≤ m → m ≤ 90 → Char.ofNat (m + 32) ≠ '#' := by
  intro m h1 h2
  interval_cases m <;> decide

theorem toLower_hash {d : Char} (h : Char.toLower d = '#') : d = '#' := by
  unfold Char.toLower at h
  dsimp only at h
  by_cases hcond : d.toNat ≥ 65 ∧ d.toNat ≤ 90
  · rw [if_pos hcond] at h
    exact absurd h (ofNat_shift_ne_hash d.toNat hcond.1 hcond.2)
  · rwa [if_neg hcond] at h

/-- C7 counterexample: tokens_from_title stems its tokens with normalize_token,
so "Building" maps to "build", not to the merely filtered token "building". -/
theorem tokensFromTitle_counterexample :
    tokens_from_title "Building" ≠ ["building"] ∧
      tokens_from_title "Building" = ["build"] := by
  constructor
  · decide
  · decide

/-- C7 amended: tokens_from_title applies the same normalization as the
tokenizer pipeline — lower-casing, non-alphanumeric replacement, whitespace
splitting, the shared short-token and stop-word filter, AND the shared
normalize_token suffix-stripping stemmer; it differs from tokenize's pipeline
only in not preserving the hashtag character. On titles without a hashtag
character it agrees with tokenize_to_list exactly. -/
theorem tokensFromTitle_amended (title : String) (h : '#' ∉ title.data) :
    tokens_from_title title = tokenize_to_list title := by
  unfold tokens_from_title tokenize_to_list
  dsimp only
  have hmap : (title.data.map Char.toLower).map
      (fun c => if c.isAlphanum ∨ c.isWhitespace then c else ' ') =
      (title.data.map Char.toLower).map
      (fun c => if c.isAlphanum ∨ c = '#' ∨ c.isWhitespace then c else ' ') := by
    apply List.map_congr_left
    intro c hc
    obtain ⟨d, hd, rfl⟩ := List.mem_map.1 hc
    have hdne : d ≠ '#' := fun hdd => h (hdd ▸ hd)
    have hne : Char.toLower d ≠ '#' := fun habs => hdne (toLower_hash habs)
    have hiff : ((Char.toLower d).isAlphanum ∨ (Char.toLower d).isWhitespace) ↔
        ((Char.toLower d).isAlphanum ∨ Char.toLower d = '#' ∨
          (Char.toLower d).isWhitespace) := by
      constructor
      · rintro (h1 | h1)
        · exact Or.inl h1
        · exact Or.inr (Or.inr h1)
      · rintro (h1 | h1 | h1)
        · exact Or.inl h1
        · exact absurd h1 hne
        · exact Or.inr h1
    exact if_congr hiff rfl rfl
  rw [hmap]

/-- C7 witness: a hashtag-free title on which the two pipelines coincide. -/
theorem tokensFromTitle_amended_witness :
    ('#' ∉ "Building".data) ∧
      tokens_from_title "Building" = tokenize_to_list "Building" :=
  ⟨by decide, tokensFromTitle_amended "Building" (by decide)⟩

theorem jaccard_self (tl : List String) (h : tl ≠ []) : jaccard tl tl = 1 := by
  unfold jaccard
  have hne : ¬ (tl.isEmpty = true ∧ tl.isEmpty = true) := by
    rintro ⟨h1, _⟩
    exact h (List.isEmpty_iff.mp h1)
  rw [if_neg hne]
  dsimp only
  rw [Finset.inter_self, Finset.union_self]
  have hcard : tl.toFinset.card ≠ 0 := by
    simp only [ne_eq, Finset.card_eq_zero, List.toFinset_eq_empty_iff]
    exact h
  rw [if_neg hcard]
  exact div_self (by exact_mod_cast hcard)

theorem tcLookup_ne_zero_mem {m : List (String × Int)} {k : String}
    (h : tcLookup m k ≠ 0) : k ∈ tcKeys m := by
  unfold tcLookup at h
  cases hf : m.find? (fun p => p.1 == k) with
  | none =>
    rw [hf] at h
    exact absurd rfl h
  | some p =>
    have hp := List.mem_of_find?_eq_some hf
    have hpk := List.find?_some hf
    have hpk' : p.1 = k := by simpa using hpk
    unfold tcKeys
    exact hpk' ▸ List.mem_map_of_mem Prod.fst hp

theorem downweight_ne_zero (k : String) : downweight k ≠ 0 := by
  unfold downweight
  split
  · norm_num
  · norm_num

theorem cosine_similarity_self (m : List (String × Int))
    (h : ∃ k, tcLookup m k ≠ 0) : cosine_similarity m m = 1 := by
  obtain ⟨k, hk⟩ := h
  have hkmem : k ∈ tcKeys m := tcLookup_ne_zero_mem hk
  unfold cosine_similarity
  dsimp only
  have hkin : k ∈ (tcKeys m ++ tcKeys m).dedup := by
    rw [List.mem_dedup]
    exact List.mem_append_left _ hkmem
  have hne : ¬ ((tcKeys m ++ tcKeys m).dedup.isEmpty = true) := by
    intro habs
    rw [List.isEmpty_iff] at habs
    rw [habs] at hkin
    cases hkin
  rw [if_neg hne]
  have hpos : 0 < (((tcKeys m ++ tcKeys m).dedup).map
      (fun j => ((tcLookup m j : ℝ) * downweight j) *
        ((tcLookup m j : ℝ) * downweight j))).sum := by
    apply sum_map_pos _ _ (fun x _ => mul_self_nonneg _) k hkin
    apply mul_self_pos.mpr
    apply mul_ne_zero
    · exact_mod_cast hk
    · exact downweight_ne_zero k
  rw [if_neg (fun habs => habs.elim (fun h0 => hpos.ne' h0) (fun h0 => hpos.ne' h0))]
  rw [Real.mul_self_sqrt hpos.le]
  exact div_self hpos.ne'

theorem title_cosine_self (tt : String) (h : tokens_from_title tt ≠ []) :
    title_cosine tt tt = 1 := by
  unfold title_cosine
  dsimp only
  have hne : ¬ ((tokens_from_title tt).isEmpty = true ∨
      (tokens_from_title tt).isEmpty = true) := by
    rintro (h1 | h1) <;> exact h (List.isEmpty_iff.mp h1)
  rw [if_neg hne]
  have hcount : (tokens_from_title tt).countP
      (fun t => decide (t ∈ tokens_from_title tt)) =
      (tokens_from_title tt).length :=
    List.countP_eq_length.mpr (fun a ha => decide_eq_true ha)
  rw [hcount]
  have hlen0 : (tokens_from_title tt).length ≠ 0 :=
    fun habs => h (List.length_eq_zero.mp habs)
  have hla : (0 : ℝ) < (tokens_from_title tt).length :=
    Nat.cast_pos.mpr (Nat.pos_of_ne_zero hlen0)
  have hsqrt : Real.sqrt
      ((((tokens_from_title tt).length * (tokens_from_title tt).length : ℕ)) : ℝ) =
      ((tokens_from_title tt).length : ℝ) := by
    rw [show ((((tokens_from_title tt).length * (tokens_from_title tt).length : ℕ)) : ℝ) =
        ((tokens_from_title tt).length : ℝ) * ((tokens_from_title tt).length : ℝ) by
      push_cast
      ring]
    exact Real.sqrt_mul_self hla.le
  rw [hsqrt, if_neg hla.ne']
  exact div_self hla.ne'

theorem cosine_embeddings_self (v : List ℝ) (h : ∃ x ∈ v, x ≠ 0) :
    cosine_embeddings (some v) (some v) = 1 := by
  obtain ⟨x, hx, hx0⟩ := h
  have hvne : v ≠ [] := by
    rintro rfl
    cases hx
  simp only [cosine_embeddings]
  have hne : ¬ (v.isEmpty = true ∨ v.isEmpty = true) := by
    rintro (h1 | h1) <;> exact hvne (List.isEmpty_iff.mp h1)
  rw [if_neg hne]
  rw [min_self, List.take_length, List.zipWith_same]
  have hpos : 0 < (v.map (fun y => y * y)).sum :=
    sum_map_pos v _ (fun y _ => mul_self_nonneg y) x hx (mul_self_pos.mpr hx0)
  rw [if_neg (fun habs => habs.elim (fun h0 => hpos.ne' h0) (fun h0 => hpos.ne' h0))]
  rw [Real.mul_self_sqrt hpos.le]
  exact div_self hpos.ne'

/-- C2 amended: computeScore(A, A) has penalty 1.0 whenever A has at least one
tag or a non-empty title-token overlap with itself (disjunction suffices for
the penalty), and its score is 1 (hence ≥ 0.99) whenever A has all four of:
at least one tag, a non-empty title-token overlap, a nonzero token count, and
a nonzero stored embedding. The conjunction is necessary for the ≥ 0.99 bound:
each component carries fixed weight (tag 0.15, title 0.05, token 0.25,
embedding 0.55) and a self-component is either 0 or 1, so dropping any one of
the four leaves the self-score at most 0.95 < 0.99 — e.g. a tagged node with a
stopword-only title, nonzero tokens and a nonzero embedding self-scores
exactly 0.95, and without an embedding the self-score can be as low as 0
(see the counterexample). -/
theorem computeScore_self_amended (a : NodeRecord) :
    ((a.tags ≠ [] ∨ tokens_from_title a.title ≠ []) →
      (compute_score a a).components.penalty = 1) ∧
    (a.tags ≠ [] → tokens_from_title a.title ≠ [] →
      (∃ k, tcLookup a.token_counts k ≠ 0) →
      (∃ v, a.embedding = some v ∧ ∃ x ∈ v, x ≠ 0) →
      0.99 ≤ (compute_score a a).score ∧ (compute_score a a).score = 1) := by
  constructor
  · intro hor
    unfold compute_score
    dsimp only
    have hcond : ¬ (jaccard a.tags a.tags = 0 ∧ title_cosine a.title a.title = 0) := by
      rintro ⟨hj, ht⟩
      rcases hor with h | h
      · rw [jaccard_self a.tags h] at hj
        norm_num at hj
      · rw [title_cosine_self a.title h] at ht
        norm_num at ht
    rw [if_neg hcond]
    norm_num
  · intro h1 h2 h3 h4
    obtain ⟨v, hv, hx⟩ := h4
    have hj := jaccard_self a.tags h1
    have ht := title_cosine_self a.title h2
    have htok := cosine_similarity_self a.token_counts h3
    have hemb : cosine_embeddings a.embedding a.embedding = 1 := by
      rw [hv]
      exact cosine_embeddings_self v hx
    have hscore : (compute_score a a).score = 1 := by
      unfold compute_score
      dsimp only
      rw [hj, ht, htok, hemb]
      rw [if_neg (by
        rintro ⟨habs, _⟩
        norm_num at habs)]
      rw [max_eq_left (by norm_num : (0 : ℝ) ≤ 1), Real.one_rpow]
      norm_num
    refine ⟨?_, hscore⟩
    rw [hscore]
    norm_num

/-- A node with no tags, no tokens, an empty title and no embedding. -/
def emptyNode : NodeRecord :=
  { id := "a"
    title := ""
    body := ""
    tags := []
    token_counts := []
    embedding := none
    created_at := ""
    updated_at := ""
    is_chunk := false
    parent_document_id := none
    chunk_order := none }

theorem computeScore_trivial (a b : NodeRecord)
    (ha1 : a.tags = []) (hb1 : b.tags = [])
    (ha2 : a.token_counts = []) (hb2 : b.token_counts = [])
    (ha3 : tokens_from_title a.title = [])
    (ha4 : a.embedding = none) :
    (compute_score a b).score = 0 := by
  have hj : jaccard a.tags b.tags = 0 := by
    unfold jaccard
    rw [if_pos ⟨by rw [ha1]; rfl, by rw [hb1]; rfl⟩]
  have htok : cosine_similarity a.token_counts b.token_counts = 0 := by
    rw [ha2, hb2]
    rfl
  have htitle : title_cosine a.title b.title = 0 := by
    unfold title_cosine
    dsimp only
    rw [ha3]
    rw [if_pos (show ([] : List String).isEmpty = true ∨
      (tokens_from_title b.title).isEmpty = true from Or.inl rfl)]
  have hembed : cosine_embeddings a.embedding b.embedding = 0 := by
    rw [ha4]
    cases hb : b.embedding <;> rfl
  unfold compute_score
  dsimp only
  rw [hj, htok, htitle, hembed]
  rw [max_self, Real.zero_rpow (by norm_num : (1.25 : ℝ) ≠ 0)]
  rw [if_pos ⟨rfl, rfl⟩]
  norm_num

/-- C2 counterexample: a node with no tags, tokens, title tokens or embedding
scores 0 against itself, far below the claimed 0.99. -/
theorem computeScore_self_counterexample :
    (compute_score emptyNode emptyNode).score < 0.99 := by
  have h0 : (compute_score emptyNode emptyNode).score = 0 :=
    computeScore_trivial emptyNode emptyNode rfl rfl rfl rfl (by decide) rfl
  rw [h0]
  norm_num

/-- A concrete self-similar node for the C2 witness. -/
noncomputable def selfNode : NodeRecord :=
  { id := "a"
    title := "rust"
    body := "rust"
    tags := ["rust"]
    token_counts := [("rust", 2)]
    embedding := some [1, 0]
    created_at := ""
    updated_at := ""
    is_chunk := false
    parent_document_id := none
    chunk_order := none }

/-- C2 witness: the concrete node satisfies all hypotheses and self-scores 1. -/
theorem computeScore_self_amended_witness :
    selfNode.tags ≠ [] ∧ tokens_from_title selfNode.title ≠ [] ∧
      (∃ k, tcLookup selfNode.token_counts k ≠ 0) ∧
      (∃ v, selfNode.embedding = some v ∧ ∃ x ∈ v, x ≠ 0) ∧
      (compute_score selfNode selfNode).score = 1 := by
  have he : ∃ v, selfNode.embedding = some v ∧ ∃ x ∈ v, x ≠ 0 :=
    ⟨[1, 0], rfl, 1, List.mem_cons_self _ _, by norm_num⟩
  refine ⟨by decide, by decide, ⟨"rust", by decide⟩, he, ?_⟩
  exact ((computeScore_self_amended selfNode).2 (by decide) (by decide)
    ⟨"rust", by decide⟩ he).2

theorem dedup_append_perm (A B : List String) :
    List.Perm ((A ++ B).dedup) ((B ++ A).dedup) := by
  apply (List.perm_ext_iff_of_nodup (List.nodup_dedup _) (List.nodup_dedup _)).2
  intro x
  simp only [List.mem_dedup, List.mem_append]
  exact or_comm

theorem sum_map_dedup_comm (A B : List String) (f : String → ℝ) :
    (((A ++ B).dedup).map f).sum = (((B ++ A).dedup).map f).sum :=
  ((dedup_append_perm A B).map f).sum_eq

theorem jaccard_comm (a b : List String) : jaccard a b = jaccard b a := by
  unfold jaccard
  dsimp only
  rw [Finset.inter_comm, Finset.union_comm]
  exact if_congr and_comm rfl rfl

theorem cosine_similarity_comm (a b : List (String × Int)) :
    cosine_similarity a b = cosine_similarity b a := by
  unfold cosine_similarity
  dsimp only
  have hperm := dedup_append_perm (tcKeys a) (tcKeys b)
  have hlen := hperm.length_eq
  by_cases h1 : ((tcKeys a ++ tcKeys b).dedup).isEmpty = true
  · have h2 : ((tcKeys b ++ tcKeys a).dedup).isEmpty = true := by
      rw [List.isEmpty_iff_length_eq_zero] at h1 ⊢
      omega
    rw [if_pos h1, if_pos h2]
  · have h2 : ¬ ((tcKeys b ++ tcKeys a).dedup).isEmpty = true := by
      intro habs
      apply h1
      rw [List.isEmpty_iff_length_eq_zero] at habs ⊢
      omega
    rw [if_neg h1, if_neg h2]
    have hA : (((tcKeys a ++ tcKeys b).dedup).map
        (fun k => ((tcLookup a k : ℝ) * downweight k) *
          ((tcLookup a k : ℝ) * downweight k))).sum =
        (((tcKeys b ++ tcKeys a).dedup).map
        (fun k => ((tcLookup a k : ℝ) * downweight k) *
          ((tcLookup a k : ℝ) * downweight k))).sum :=
      sum_map_dedup_comm _ _ _
    have hB : (((tcKeys a ++ tcKeys b).dedup).map
        (fun k => ((tcLookup b k : ℝ) * downweight k) *
          ((tcLookup b k : ℝ) * downweight k))).sum =
        (((tcKeys b ++ tcKeys a).dedup).map
        (fun k => ((tcLookup b k : ℝ) * downweight k) *
          ((tcLookup b k : ℝ) * downweight k))).sum :=
      sum_map_dedup_comm _ _ _
    have hdot : (((tcKeys a ++ tcKeys b).dedup).map
        (fun k => ((tcLookup a k : ℝ) * downweight k) *
          ((tcLookup b k : ℝ) * downweight k))).sum =
        (((tcKeys b ++ tcKeys a).dedup).map
        (fun k => ((tcLookup b k : ℝ) * downweight k) *
          ((tcLookup a k : ℝ) * downweight k))).sum := by
      rw [sum_map_dedup_comm]
      exact congrArg List.sum (List.map_congr_left (fun k _ => mul_comm _ _))
    rw [hA, hB, hdot]
    by_cases hc : (((tcKeys b ++ tcKeys a).dedup).map
        (fun k => ((tcLookup b k : ℝ) * downweight k) *
          ((tcLookup b k : ℝ) * downweight k))).sum = 0 ∨
        (((tcKeys b ++ tcKeys a).dedup).map
        (fun k => ((tcLookup a k : ℝ) * downweight k) *
          ((tcLookup a k : ℝ) * downweight k))).sum = 0
    · rw [if_pos (Or.symm hc), if_pos hc]
    · rw [if_neg (fun habs => hc (Or.symm habs)), if_neg hc]
      rw [mul_comm (Real.sqrt _) (Real.sqrt _)]

theorem countP_mem_eq_inter_card (s t : List String) (hs : s.Nodup) :
    s.countP (fun x => decide (x ∈ t)) = (s.toFinset ∩ t.toFinset).card := by
  rw [List.countP_eq_length_filter]
  rw [← List.toFinset_card_of_nodup (hs.filter _)]
  congr 1
  ext x
  simp [List.mem_filter, and_comm]

theorem title_overlap_comm (ta tb : List String) (ha : ta.Nodup) (hb : tb.Nodup) :
    ta.countP (fun t => decide (t ∈ tb)) = tb.countP (fun t => decide (t ∈ ta)) := by
  rw [countP_mem_eq_inter_card ta tb ha, countP_mem_eq_inter_card tb ta hb,
    Finset.inter_comm]

theorem title_cosine_comm (a b : String)
    (ha : (tokens_from_title a).Nodup) (hb : (tokens_from_title b).Nodup) :
    title_cosine a b = title_cosine b a := by
  unfold title_cosine
  dsimp only
  by_cases hc : (tokens_from_title a).isEmpty = true ∨
      (tokens_from_title b).isEmpty = true
  · rw [if_pos hc, if_pos (Or.symm hc)]
  · rw [if_neg hc, if_neg (fun habs => hc (Or.symm habs))]
    rw [title_overlap_comm _ _ ha hb,
      Nat.mul_comm (tokens_from_title a).length (tokens_from_title b).length]

theorem cosine_embeddings_comm (x y : Option (List ℝ)) :
    cosine_embeddings x y = cosine_embeddings y x := by
  cases x with
  | none => cases y <;> rfl
  | some va =>
    cases y with
    | none => rfl
    | some vb =>
      simp only [cosine_embeddings]
      by_cases hc : va.isEmpty = true ∨ vb.isEmpty = true
      · rw [if_pos hc, if_pos (Or.symm hc)]
      · rw [if_neg hc, if_neg (fun habs => hc (Or.symm habs))]
        rw [min_comm vb.length va.length]
        rw [List.zipWith_comm_of_comm (fun x y => x * y) mul_comm
          (vb.take (min va.length vb.length)) (va.take (min va.length vb.length))]
        by_cases hm : (List.zipWith (fun x y => x * y)
              (vb.take (min va.length vb.length))
              (vb.take (min va.length vb.length))).sum = 0 ∨
            (List.zipWith (fun x y => x * y)
              (va.take (min va.length vb.length))
              (va.take (min va.length vb.length))).sum = 0
        · rw [if_pos (Or.symm hm), if_pos hm]
        · rw [if_neg (fun habs => hm (Or.symm habs)), if_neg hm]
          rw [mul_comm (Real.sqrt _) (Real.sqrt _)]

/-- C10 counterexample: title_cosine counts overlap with multiplicity from its
first argument, so two nodes whose only difference from symmetry is a repeated
title token get different scores in the two argument orders. -/
theorem computeScore_symm_counterexample :
    (compute_score
        { id := "p", title := "alpha alpha", body := "", tags := [],
          token_counts := [], embedding := none, created_at := "",
          updated_at := "", is_chunk := false, parent_document_id := none,
          chunk_order := none }
        { id := "q", title := "alpha", body := "", tags := [],
          token_counts := [], embedding := none, created_at := "",
          updated_at := "", is_chunk := false, parent_document_id := none,
          chunk_order := none }).score ≠
      (compute_score
        { id := "q", title := "alpha", body := "", tags := [],
          token_counts := [], embedding := none, created_at := "",
          updated_at := "", is_chunk := false, parent_document_id := none,
          chunk_order := none }
        { id := "p", title := "alpha alpha", body := "", tags := [],
          token_counts := [], embedding := none, created_at := "",
          updated_at := "", is_chunk := false, parent_document_id := none,
          chunk_order := none }).score := by
  have hsqrt2 : (0 : ℝ) < Real.sqrt 2 := Real.sqrt_pos.mpr (by norm_num)
  have htc1 : title_cosine "alpha alpha" "alpha" = 2 / Real.sqrt 2 := by
    unfold title_cosine
    dsimp only
    rw [show tokens_from_title "alpha alpha" = ["alpha", "alpha"] from by decide]
    rw [show tokens_from_title "alpha" = ["alpha"] from by decide]
    rw [if_neg (by
      rintro (h | h) <;> exact Bool.noConfusion h)]
    rw [show (List.countP (fun t => decide (t ∈ ["alpha"])) ["alpha", "alpha"]) = 2
      from by decide]
    rw [show ((["alpha", "alpha"].length * ["alpha"].length : ℕ) : ℝ) = 2 from by
      norm_num]
    rw [if_neg hsqrt2.ne']
    norm_num
  have htc2 : title_cosine "alpha" "alpha alpha" = 1 / Real.sqrt 2 := by
    unfold title_cosine
    dsimp only
    rw [show tokens_from_title "alpha alpha" = ["alpha", "alpha"] from by decide]
    rw [show tokens_from_title "alpha" = ["alpha"] from by decide]
    rw [if_neg (by
      rintro (h | h) <;> exact Bool.noConfusion h)]
    rw [show (List.countP (fun t => decide (t ∈ ["alpha", "alpha"])) ["alpha"]) = 1
      from by decide]
    rw [show ((["alpha"].length * ["alpha", "alpha"].length : ℕ) : ℝ) = 2 from by
      norm_num]
    rw [if_neg hsqrt2.ne']
    norm_num
  unfold compute_score
  dsimp only
  rw [htc1, htc2]
  have hj : jaccard [] [] = 0 := by
    unfold jaccard
    rw [if_pos ⟨rfl, rfl⟩]
  have htok : cosine_similarity [] [] = 0 := rfl
  have hemb : cosine_embeddings (none : Option (List ℝ)) none = 0 := rfl
  rw [hj, htok, hemb]
  rw [max_self, Real.zero_rpow (by norm_num : (1.25 : ℝ) ≠ 0)]
  have h2ne : 2 / Real.sqrt 2 ≠ 0 := by positivity
  have h1ne : 1 / Real.sqrt 2 ≠ 0 := by positivity
  rw [if_neg (fun habs => h2ne habs.2), if_neg (fun habs => h1ne habs.2)]
  apply ne_of_gt
  have hdiv : 1 / Real.sqrt 2 < 2 / Real.sqrt 2 :=
    (div_lt_div_iff_of_pos_right hsqrt2).mpr (by norm_num)
  nlinarith [hdiv]

/-- C10 amended: compute_score is symmetric — equal final score, equal
component values and equal penalty — for every pair of nodes whose title-token
lists are duplicate-free (which includes every title without repeated words;
the raw claim fails only through title_cosine's multiplicity counting). -/
theorem computeScore_symm_amended (a b : NodeRecord)
    (ha : (tokens_from_title a.title).Nodup)
    (hb : (tokens_from_title b.title).Nodup) :
    compute_score a b = compute_score b a := by
  unfold compute_score
  dsimp only
  rw [jaccard_comm a.tags b.tags,
    cosine_similarity_comm a.token_counts b.token_counts,
    title_cosine_comm a.title b.title ha hb,
    cosine_embeddings_comm a.embedding b.embedding]

/-- C10 witness: two concrete nodes with duplicate-free title tokens on which
compute_score is symmetric. -/
theorem computeScore_symm_amended_witness :
    (tokens_from_title emptyNode.title).Nodup ∧
      (tokens_from_title selfNode.title).Nodup ∧
      compute_score emptyNode selfNode = compute_score selfNode emptyNode :=
  ⟨by decide, by decide,
    computeScore_symm_amended emptyNode selfNode (by decide) (by decide)⟩

/-- C4: semantic_search returns [] (not an error) when the query embedding is
none; otherwise every returned entry is a corpus node with a stored embedding,
carrying the plain cosine similarity (no power transform) to the query vector,
the list is sorted descending by that similarity, and it has at most `limit`
entries. -/
theorem semanticSearch_spec (nodes : List NodeRecord) (limit : ℕ) :
    semantic_search none nodes limit = [] ∧
    ∀ q : List ℝ,
      (∀ r ∈ semantic_search (some q) nodes limit,
        r.node ∈ nodes ∧ ∃ emb, r.node.embedding = some emb ∧
          r.similarity = cosine_embeddings (some q) (some emb)) ∧
      (semantic_search (some q) nodes limit).Pairwise
        (fun x y => y.similarity ≤ x.similarity) ∧
      (semantic_search (some q) nodes limit).length ≤ limit := by
  refine ⟨rfl, ?_⟩
  intro q
  refine ⟨?_, ?_, ?_⟩
  · intro r hr
    unfold semantic_search at hr
    dsimp only at hr
    have hr2 := List.mem_of_mem_take hr
    rw [List.mem_mergeSort] at hr2
    obtain ⟨n, hn, hfn⟩ := List.mem_filterMap.1 hr2
    cases hemb : n.embedding with
    | none =>
      rw [hemb] at hfn
      cases hfn
    | some emb =>
      rw [hemb] at hfn
      cases hfn
      exact ⟨hn, emb, hemb, rfl⟩
  · unfold semantic_search
    dsimp only
    apply List.Pairwise.sublist (List.take_sublist _ _)
    have hsorted : ((nodes.filterMap (fun n =>
        match n.embedding with
        | some emb => some (⟨n, cosine_embeddings (some q) (some emb)⟩ : SearchResult)
        | none => none)).mergeSort
          (fun x y => decide (y.similarity ≤ x.similarity))).Pairwise
        (fun x y => decide (y.similarity ≤ x.similarity) = true) :=
      List.sorted_mergeSort
        (fun a b c hab hbc => by
          simp only [decide_eq_true_eq] at *
          exact le_trans hbc hab)
        (fun a b => by
          rcases le_total b.similarity a.similarity with h | h <;> simp [h])
        (nodes.filterMap (fun n =>
          match n.embedding with
          | some emb => some (⟨n, cosine_embeddings (some q) (some emb)⟩ : SearchResult)
          | none => none))
    refine List.Pairwise.imp ?_ hsorted
    intro x y hxy
    simpa using hxy
  · unfold semantic_search
    dsimp only
    rw [List.length_take]
    exact min_le_left _ _

/-- A concrete node holding an embedding, for the C4 witness. -/
noncomputable def searchNode : NodeRecord :=
  { id := "n"
    title := ""
    body := ""
    tags := []
    token_counts := []
    embedding := some [1]
    created_at := ""
    updated_at := ""
    is_chunk := false
    parent_document_id := none
    chunk_order := none }

/-- C4 witness: a one-node corpus with an embedded node; the returned entry is
that node with its stored embedding. -/
theorem semanticSearch_spec_witness :
    (⟨searchNode, cosine_embeddings (some [1]) (some [1])⟩ : SearchResult) ∈
        semantic_search (some [1]) [searchNode] 1 ∧
      (⟨searchNode, cosine_embeddings (some [1]) (some [1])⟩ :
        SearchResult).node ∈ [searchNode] := by
  have hmem : (⟨searchNode, cosine_embeddings (some [1]) (some [1])⟩ :
      SearchResult) ∈ semantic_search (some [1]) [searchNode] 1 := by
    unfold semantic_search
    dsimp only
    rw [show [searchNode].filterMap (fun n =>
        match n.embedding with
        | some emb => some (⟨n, cosine_embeddings (some [1]) (some emb)⟩ : SearchResult)
        | none => none) =
        [⟨searchNode, cosine_embeddings (some [1]) (some [1])⟩] from rfl]
    rw [List.mergeSort_singleton]
    exact List.mem_cons_self _ _
  exact ⟨hmem,
    (((semanticSearch_spec [searchNode] 1).2 [1]).1 _ hmem).1⟩

/-- C5: auto_link_node scores the new node against every corpus node other
than itself and upserts an edge exactly when the classification is not
Discard; every upserted edge carries the computed score, the status mapped
from the classification, edge type Semantic, no metadata, and the normalized
id pair; the accepted and suggested counts equal the number of upserted edges
with each status. -/
theorem autoLinkNode_spec (corpus : List NodeRecord) (nn : NodeRecord)
    (autoAccept suggestion : ℝ) :
    (∀ e ∈ (auto_link_node corpus nn autoAccept suggestion).1,
      ∃ other ∈ corpus, other.id ≠ nn.id ∧
        classify_score autoAccept suggestion (compute_score nn other).score ≠
          ScoreClassification.Discard ∧
        classification_to_status
          (classify_score autoAccept suggestion (compute_score nn other).score) =
          some e.status ∧
        e.score = (compute_score nn other).score ∧
        e.edge_type = EdgeType.Semantic ∧
        e.metadata = none ∧
        (e.source_id, e.target_id) = normalize_edge_pair nn.id other.id) ∧
    (∀ other ∈ corpus, other.id ≠ nn.id →
      ∀ st, classification_to_status
          (classify_score autoAccept suggestion (compute_score nn other).score) =
          some st →
        ({ source_id := (normalize_edge_pair nn.id other.id).1
           target_id := (normalize_edge_pair nn.id other.id).2
           score := (compute_score nn other).score
           status := st
           edge_type := EdgeType.Semantic
           metadata := none } : NewEdge) ∈
          (auto_link_node corpus nn autoAccept suggestion).1) ∧
    (auto_link_node corpus nn autoAccept suggestion).2.1 =
      (auto_link_node corpus nn autoAccept suggestion).1.countP
        (fun e => decide (e.status = EdgeStatus.Accepted)) ∧
    (auto_link_node corpus nn autoAccept suggestion).2.2 =
      (auto_link_node corpus nn autoAccept suggestion).1.countP
        (fun e => decide (e.status = EdgeStatus.Suggested)) := by
  induction corpus with
  | nil =>
    refine ⟨?_, ?_, rfl, rfl⟩
    · intro e he
      cases he
    · intro other hother
      cases hother
  | cons other rest ih =>
    obtain ⟨ih1, ih2, ih3, ih4⟩ := ih
    by_cases hid : other.id = nn.id
    · have hred : auto_link_node (other :: rest) nn autoAccept suggestion =
          auto_link_node rest nn autoAccept suggestion := by
        simp only [auto_link_node]
        rw [if_pos hid]
      rw [hred]
      refine ⟨?_, ?_, ih3, ih4⟩
      · intro e he
        obtain ⟨o, ho, hrest⟩ := ih1 e he
        exact ⟨o, List.mem_cons_of_mem _ ho, hrest⟩
      · intro o ho hne st hst
        rcases List.mem_cons.1 ho with h | h
        · subst h
          exact absurd hid hne
        · exact ih2 o h hne st hst
    · cases hcl : classification_to_status
          (classify_score autoAccept suggestion (compute_score nn other).score) with
      | none =>
        have hred : auto_link_node (other :: rest) nn autoAccept suggestion =
            auto_link_node rest nn autoAccept suggestion := by
          simp only [auto_link_node]
          rw [if_neg hid, hcl]
        rw [hred]
        refine ⟨?_, ?_, ih3, ih4⟩
        · intro e he
          obtain ⟨o, ho, hrest⟩ := ih1 e he
          exact ⟨o, List.mem_cons_of_mem _ ho, hrest⟩
        · intro o ho hne st hst
          rcases List.mem_cons.1 ho with h | h
          · subst h
            rw [hcl] at hst
            cases hst
          · exact ih2 o h hne st hst
      | some st0 =>
        have hred : auto_link_node (other :: rest) nn autoAccept suggestion =
            (({ source_id := (normalize_edge_pair nn.id other.id).1
                target_id := (normalize_edge_pair nn.id other.id).2
                score := (compute_score nn other).score
                status := st0
                edge_type := EdgeType.Semantic
                metadata := none } : NewEdge) ::
                (auto_link_node rest nn autoAccept suggestion).1,
             (if st0 = EdgeStatus.Accepted then 1 else 0) +
               (auto_link_node rest nn autoAccept suggestion).2.1,
             (if st0 = EdgeStatus.Suggested then 1 else 0) +
               (auto_link_node rest nn autoAccept suggestion).2.2) := by
          simp only [auto_link_node]
          rw [if_neg hid, hcl]
        have hdisc : classify_score autoAccept suggestion
            (compute_score nn other).score ≠ ScoreClassification.Discard := by
          intro habs
          rw [habs] at hcl
          cases hcl
        refine ⟨?_, ?_, ?_, ?_⟩
        · intro e he
          rw [hred] at he
          rcases List.mem_cons.1 he with h | h
          · subst h
            exact ⟨other, List.mem_cons_self _ _, hid, hdisc, hcl, rfl, rfl, rfl, rfl⟩
          · obtain ⟨o, ho, hrest⟩ := ih1 e h
            exact ⟨o, List.mem_cons_of_mem _ ho, hrest⟩
        · intro o ho hne st hst
          rcases List.mem_cons.1 ho with h | h
          · subst h
            rw [hcl] at hst
            have hstacc : st0 = st := Option.some.inj hst
            subst hstacc
            rw [hred]
            exact List.mem_cons_self _ _
          · rw [hred]
            exact List.mem_cons_of_mem _ (ih2 o h hne st hst)
        · rw [hred]
          dsimp only
          rw [List.countP_cons, ← ih3]
          by_cases hA : st0 = EdgeStatus.Accepted
          · simp [hA, Nat.add_comm]
          · simp [hA]
        · rw [hred]
          dsimp only
          rw [List.countP_cons, ← ih4]
          by_cases hS : st0 = EdgeStatus.Suggested
          · simp [hS, Nat.add_comm]
          · simp [hS]

/-- A second lexically empty node with a distinct id, for the C5 witness. -/
def nodeB : NodeRecord :=
  { id := "b"
    title := ""
    body := ""
    tags := []
    token_counts := []
    embedding := none
    created_at := ""
    updated_at := ""
    is_chunk := false
    parent_document_id := none
    chunk_order := none }

/-- C5 witness: with thresholds -1 and -2 every score classifies as Accepted,
so linking nodeB against the one-node corpus [emptyNode] upserts the
corresponding Accepted edge. -/
theorem autoLinkNode_spec_witness :
    emptyNode ∈ [emptyNode] ∧ emptyNode.id ≠ nodeB.id ∧
      classification_to_status (classify_score (-1) (-2)
        (compute_score nodeB emptyNode).score) = some EdgeStatus.Accepted ∧
      ({ source_id := (normalize_edge_pair nodeB.id emptyNode.id).1
         target_id := (normalize_edge_pair nodeB.id emptyNode.id).2
         score := (compute_score nodeB emptyNode).score
         status := EdgeStatus.Accepted
         edge_type := EdgeType.Semantic
         metadata := none } : NewEdge) ∈
        (auto_link_node [emptyNode] nodeB (-1) (-2)).1 := by
  have hscore : (compute_score nodeB emptyNode).score = 0 :=
    computeScore_trivial nodeB emptyNode rfl rfl rfl rfl (by decide) rfl
  have hst : classification_to_status (classify_score (-1) (-2)
      (compute_score nodeB emptyNode).score) = some EdgeStatus.Accepted := by
    rw [hscore]
    unfold classify_score
    rw [if_pos (by norm_num : (0 : ℝ) ≥ -1)]
    rfl
  refine ⟨List.mem_cons_self _ _, by decide, hst, ?_⟩
  exact (autoLinkNode_spec [emptyNode] nodeB (-1) (-2)).2.1 emptyNode
    (List.mem_cons_self _ _) (by decide) EdgeStatus.Accepted hst

end Forest
